import Mathlib

/-!
# Verification of the maph signature-filter engine surface

The repository's visible surface consists of Python tests and examples for a
perfect-hash-backed approximate-membership library (`approximate_filters` /
`rd_ph_filter`) and a REST client (`maph_client/client.py`).  The native
engine itself is not part of the visible sources, so the engine components
are modelled here faithfully from the specification's component design
(HashCodec, Perfect Hash Construction, Signature/Threshold filters,
Compact Lookup, FilterBatch); the REST client's `get`/`__getitem__` logic is
embedded directly from `client.py`.
-/

namespace Maph

mutual

/-- Modelled from the spec: input elements are opaque byte-serializable
values covering the types the tests exercise — integers, strings, floats
(represented by their bit pattern, since only serialized identity matters),
tuples and absence markers.  Identity is structural equality of the
serialized form. -/
inductive Element where
  | int : Int → Element
  | str : String → Element
  | float : Nat → Element
  | tup : ElemList → Element
  | absent : Element
  deriving DecidableEq

/-- A list of elements, for tuple payloads. -/
inductive ElemList where
  | nil : ElemList
  | cons : Element → ElemList → ElemList
  deriving DecidableEq

end

/-- Base-256 digits, fuel-bounded so the recursion is structural (the fuel
`n` always suffices since `n / 256` shrinks strictly). -/
def natBytesAux : Nat → Nat → List Nat
  | 0, n => [n]
  | fuel + 1, n => if n < 256 then [n] else (n % 256) :: natBytesAux fuel (n / 256)

/-- Base-256 digits of a natural number (little-endian), at least one byte. -/
def natBytes (n : Nat) : List Nat :=
  natBytesAux n n

mutual

/-- Modelled from the spec: the canonical serialize-to-bytes step of the
HashCodec (spec 4.1 and design note on heterogeneous inputs): one explicit
encoding per supported element category, tagged per constructor. -/
def serialize : Element → List Nat
  | .int n => 0 :: (if n < 0 then 1 else 0) :: natBytes n.natAbs
  | .str s => 1 :: s.length :: s.toList.map Char.toNat
  | .float b => 2 :: natBytes b
  | .tup es => 3 :: serializeList es
  | .absent => [4]

/-- Serialization of a tuple payload, with a terminator byte. -/
def serializeList : ElemList → List Nat
  | .nil => [255]
  | .cons e es => serialize e ++ serializeList es

end

/-- 2^64, the digest modulus (spec 4.1: digest width ≥ 64 bits). -/
def M64 : Nat := 18446744073709551616

/-- Modelled from the spec: a 64-bit digest that is a pure function of the
serialized bytes, seedable for the slot-index derivation (an FNV-style
fold; the spec fixes only purity and width). -/
def hashBytes (seed : Nat) (bs : List Nat) : Nat :=
  bs.foldl (fun h b => ((h ^^^ b) * 1099511628211) % M64)
    ((14695981039346656037 + seed * 1099511628211) % M64)

/-- Modelled from the spec (4.1): `slot(element, seed, m) -> [0, m)`. -/
def slotOf (seed m : Nat) (e : Element) : Nat :=
  hashBytes seed (serialize e) % m

/-- Modelled from the spec (4.3): the W-bit signature of an element, the low
W bits of its digest, independent of the slot assignment. -/
def sigW (W : Nat) (e : Element) : Nat :=
  hashBytes 0 (serialize e) % 2 ^ W

/-- Modelled from the spec (7): the build-time error taxonomy. -/
inductive BuildError where
  | construction : BuildError
  | sizeMismatch : BuildError
  | outOfRange : BuildError
  | invalidConfig : BuildError
  deriving DecidableEq

deriving instance DecidableEq for Except

/-- Modelled from the spec (3, BuildConfig): immutable builder state with
`error_rate ∈ [0,1]`, `load_factor ≥ 1.0` and a construction-attempt bound. -/
structure BuildConfig where
  error_rate : ℚ
  load_factor : ℚ
  max_iterations : Nat
  deriving DecidableEq

/-- Modelled from the spec (6): `PerfectHashBuilder(error_rate)`, with the
default load factor 1.0 implied by the tests' exact storage accounting. -/
def PerfectHashBuilder (error_rate : ℚ) : BuildConfig :=
  { error_rate := error_rate, load_factor := 1, max_iterations := 64 }

/-- Modelled from the spec (4.2): slot count `m = ceil(load_factor * n)`. -/
def mOf (cfg : BuildConfig) (n : Nat) : Nat :=
  (⌈cfg.load_factor * (n : ℚ)⌉).toNat

/-- Modelled from the spec (4.2): up to `round(error_rate * n)` colliding
elements may be left unassigned. -/
def tolOf (cfg : BuildConfig) (n : Nat) : Nat :=
  (round (cfg.error_rate * (n : ℚ))).toNat

/-- Modelled from the spec (4.2): one trial assignment pass at a fixed seed.
Each item is assigned the slot of its key unless that slot is already used,
in which case the item is left unassigned (a collision).  Polymorphic in the
item type so that the same pass serves filters (items are elements) and
lookups (items are key/value pairs). -/
def assignAux (keyOf : α → Element) (seed m : Nat) :
    List α → List Nat → List (α × Nat) × List α
  | [], _ => ([], [])
  | a :: as, used =>
    let s := slotOf seed m (keyOf a)
    if s ∈ used then
      let r := assignAux keyOf seed m as used
      (r.1, a :: r.2)
    else
      let r := assignAux keyOf seed m as (s :: used)
      ((a, s) :: r.1, r.2)

/-- Modelled from the spec (4.2): the bounded seed search — try successive
trial seeds, accepting the first whose assignment pass leaves at most `tol`
items unassigned; `none` when `fuel` (= `max_iterations`) is exhausted. -/
def searchSeed (keyOf : α → Element) (m tol : Nat) (as : List α) :
    Nat → Nat → Option (Nat × (List (α × Nat) × List α))
  | 0, _ => none
  | fuel + 1, seed =>
    let r := assignAux keyOf seed m as []
    if r.2.length ≤ tol then some (seed, r)
    else searchSeed keyOf m tol as fuel (seed + 1)

/-- Write the given (slot, stored-word) pairs into a slot array. -/
def writeSlots : List (Nat × Nat) → List (Option Nat) → List (Option Nat)
  | [], slots => slots
  | (s, v) :: rest, slots => writeSlots rest (slots.set s (some v))

/-- Modelled from the spec (4.3): an immutable array of `m` W-bit signature
slots, together with the winning seed and the construction bookkeeping
needed by `false_negative_rate`. -/
structure SigFilter where
  W : Nat
  seed : Nat
  m : Nat
  nDropped : Nat
  nElems : Nat
  slots : List (Option Nat)
  deriving DecidableEq

/-- Modelled from the spec (4.2–4.3): build a signature filter — deduplicate
the construction set, search for a seed whose collisions are within
tolerance, then store each assigned element's W-bit signature at its slot. -/
def buildFilter (cfg : BuildConfig) (W : Nat) (es0 : List Element) :
    Except BuildError SigFilter :=
  let es := es0.dedup
  let m := mOf cfg es.length
  match searchSeed id m (tolOf cfg es.length) es cfg.max_iterations 0 with
  | none => .error .construction
  | some (seed, assigned, dropped) =>
      .ok { W := W, seed := seed, m := m,
            nDropped := dropped.length, nElems := es.length,
            slots := writeSlots (assigned.map (fun p => (p.2, sigW W p.1)))
                       (List.replicate m none) }

/-- Modelled from the spec (4.3): `contains(x)` compares the stored
signature at `slot(x)` with `signature(x)`; an unoccupied or out-of-range
slot reports non-membership. -/
def SigFilter.contains (f : SigFilter) (x : Element) : Bool :=
  match f.slots[slotOf f.seed f.m x]? with
  | some (some s) => s == sigW f.W x
  | _ => false

/-- Modelled from the spec (4.3): `storage_bytes() = m * W / 8`, accounting
the actual slot array. -/
def SigFilter.storage_bytes (f : SigFilter) : Nat :=
  f.slots.length * f.W / 8

/-- Modelled from the spec (4.3): the fraction of the construction set left
unassigned by the builder. -/
def SigFilter.false_negative_rate (f : SigFilter) : ℚ :=
  (f.nDropped : ℚ) / (f.nElems : ℚ)

/-- Modelled from the spec (4.4): a signature filter variant whose
acceptance predicate is `stored ≤ t`. -/
structure ThreshFilter where
  W : Nat
  seed : Nat
  m : Nat
  t : Nat
  slots : List (Option Nat)
  deriving DecidableEq

/-- Modelled from the spec (4.4): `t = floor(target_fpr * 2^W)`. -/
def thresholdOf (target_fpr : ℚ) (W : Nat) : Nat :=
  (⌊target_fpr * ((2 : ℚ) ^ W)⌋).toNat

/-- Modelled from the spec (4.4): build a threshold filter; members are
signed so that their stored word always satisfies the acceptance predicate
(here `sig % (t+1) ≤ t`, the rounding being an implementation choice the
spec leaves open); `target_fpr` outside `[0,1]` is a configuration error. -/
def buildThreshFilter (cfg : BuildConfig) (W : Nat) (target_fpr : ℚ)
    (es0 : List Element) : Except BuildError ThreshFilter :=
  if target_fpr < 0 ∨ 1 < target_fpr then .error .invalidConfig
  else
    let es := es0.dedup
    let m := mOf cfg es.length
    let t := thresholdOf target_fpr W
    match searchSeed id m (tolOf cfg es.length) es cfg.max_iterations 0 with
    | none => .error .construction
    | some (seed, assigned, _) =>
        .ok { W := W, seed := seed, m := m, t := t,
              slots := writeSlots (assigned.map (fun p => (p.2, sigW W p.1 % (t + 1))))
                         (List.replicate m none) }

/-- Modelled from the spec (4.4): acceptance is `stored_signature ≤ t`; an
unoccupied or out-of-range slot reports non-membership. -/
def ThreshFilter.contains (f : ThreshFilter) (x : Element) : Bool :=
  match f.slots[slotOf f.seed f.m x]? with
  | some (some v) => v ≤ f.t
  | _ => false

/-- Storage accounting for a threshold filter, as in 4.3. -/
def ThreshFilter.storage_bytes (f : ThreshFilter) : Nat :=
  f.slots.length * f.W / 8

/-- Modelled from the spec (3, 4.5): an immutable array of `m` W-bit value
slots keyed by the perfect hash. -/
structure CompactLookup where
  W : Nat
  seed : Nat
  m : Nat
  slots : List (Option Nat)
  deriving DecidableEq

/-- Modelled from the spec (4.5): build a compact lookup — a size mismatch
raises `SizeMismatchError` before anything is built, a value outside
`[0, 2^W)` raises `OutOfRangeValueError`, and `values[i]` is stored at
`slot(keys[i])`.  The data-model invariant "every constructed key maps to
exactly the value supplied at build time" forces a collision-free
assignment, so the seed search runs with zero tolerance. -/
def buildLookup (cfg : BuildConfig) (W : Nat) (keys : List Element)
    (vals : List Nat) : Except BuildError CompactLookup :=
  if keys.length ≠ vals.length then .error .sizeMismatch
  else if vals.any (fun v => 2 ^ W ≤ v) then .error .outOfRange
  else
    let pairs := keys.zip vals
    let m := mOf cfg keys.length
    match searchSeed Prod.fst m 0 pairs cfg.max_iterations 0 with
    | none => .error .construction
    | some (seed, assigned, _) =>
        .ok { W := W, seed := seed, m := m,
              slots := writeSlots (assigned.map (fun p => (p.2, p.1.2)))
                         (List.replicate m none) }

/-- Modelled from the spec (4.5): `get(key, default)` reads the slot the key
hashes to — no membership signature guards it — and falls back to `default`
only when that slot is unoccupied. -/
def CompactLookup.get (lk : CompactLookup) (k : Element) (d : Nat) : Nat :=
  match lk.slots[slotOf lk.seed lk.m k]? with
  | some (some v) => v
  | _ => d

/-- Storage accounting for a compact lookup, as in 4.3. -/
def CompactLookup.storage_bytes (lk : CompactLookup) : Nat :=
  lk.slots.length * lk.W / 8

/-- Modelled from the spec (4.7): an ordered collection of built filters. -/
structure FilterBatch where
  filters : List SigFilter
  deriving DecidableEq

/-- A batch with no filters. -/
def FilterBatch.empty : FilterBatch := ⟨[]⟩

/-- Modelled from the spec (4.7): `add` appends at the end, preserving
insertion order. -/
def FilterBatch.add (b : FilterBatch) (f : SigFilter) : FilterBatch :=
  ⟨b.filters ++ [f]⟩

/-- Modelled from the spec (4.7): number of filters in the batch. -/
def FilterBatch.size (b : FilterBatch) : Nat :=
  b.filters.length

/-- Modelled from the spec (4.7): per-filter membership, order preserved. -/
def FilterBatch.test_all (b : FilterBatch) (x : Element) : List Bool :=
  b.filters.map (fun f => f.contains x)

/-- Modelled from the spec (4.7): short-circuiting OR over the batch,
well-defined (false) for zero filters. -/
def FilterBatch.test_any (b : FilterBatch) (x : Element) : Bool :=
  b.filters.foldl (fun acc f => acc || f.contains x) false

end Maph

namespace MaphClient

/-- The part of an HTTP response `client.py` inspects: the status code, the
`error` field of the JSON body (`""` when absent, matching
`data.get("error", "")`), and the `value` field when present. -/
structure HttpResponse where
  status : Nat
  errorMsg : String
  value : Option String
  deriving DecidableEq

/-- The exception outcomes of `MaphStore.__getitem__` in `client.py`:
`StoreNotFoundError`, `KeyNotFoundError`, the `requests` `HTTPError` from
`raise_for_status()`, and the `KeyError` from `response.json()["value"]`. -/
inductive ClientError where
  | storeNotFound : ClientError
  | keyNotFound : ClientError
  | httpError : Nat → ClientError
  | jsonKeyError : ClientError
  deriving DecidableEq

/-- Whether `pat` occurs at the very start of `s` (character lists). -/
def charsStartWith : List Char → List Char → Bool
  | [], _ => true
  | _ :: _, [] => false
  | p :: ps, c :: cs => p == c && charsStartWith ps cs

/-- Whether `pat` occurs anywhere inside `s` (character lists). -/
def hasSubstr : List Char → List Char → Bool
  | pat, [] => charsStartWith pat []
  | pat, c :: cs => charsStartWith pat (c :: cs) || hasSubstr pat cs

/-- Python's substring test `pat in s`. -/
def containsSubstr (pat s : String) : Bool :=
  hasSubstr pat.toList s.toList

/-- `MaphStore.__getitem__` from `client.py`: on 404, a body whose error
mentions "Store not found" raises `StoreNotFoundError` and any other 404
raises `KeyNotFoundError`; any other error status raises via
`raise_for_status()`; otherwise the JSON `value` field is returned. -/
def getItem (resp : HttpResponse) : Except ClientError String :=
  if resp.status = 404 then
    if containsSubstr "Store not found" resp.errorMsg then
      .error .storeNotFound
    else
      .error .keyNotFound
  else if 400 ≤ resp.status then .error (.httpError resp.status)
  else
    match resp.value with
    | some v => .ok v
    | none => .error .jsonKeyError

/-- `MaphStore.get` from `client.py`: delegate to `__getitem__`, catching
exactly `KeyNotFoundError` and returning the default in that case. -/
def get (resp : HttpResponse) (d : Option String) :
    Except ClientError (Option String) :=
  match getItem resp with
  | .ok v => .ok (some v)
  | .error .keyNotFound => .ok d
  | .error e => .error e

end MaphClient

namespace Maph

/-! ### Properties of the slot-writing pass -/

theorem writeSlots_length (ps : List (Nat × Nat)) (init : List (Option Nat)) :
    (writeSlots ps init).length = init.length := by
  induction ps generalizing init with
  | nil => rfl
  | cons p ps ih =>
    obtain ⟨s, v⟩ := p
    rw [show writeSlots ((s, v) :: ps) init = writeSlots ps (init.set s (some v)) from rfl,
      ih, List.length_set]

theorem writeSlots_getElem?_of_not_mem (ps : List (Nat × Nat)) (init : List (Option Nat))
    (s : Nat) (hs : s ∉ ps.map Prod.fst) :
    (writeSlots ps init)[s]? = init[s]? := by
  induction ps generalizing init with
  | nil => rfl
  | cons p ps ih =>
    obtain ⟨s0, v0⟩ := p
    simp only [List.map_cons, List.mem_cons, not_or] at hs
    rw [show writeSlots ((s0, v0) :: ps) init = writeSlots ps (init.set s0 (some v0)) from rfl,
      ih _ hs.2]
    have hne : s0 ≠ s := fun h => hs.1 h.symm
    simp [List.getElem?_set, hne]

theorem writeSlots_getElem?_mem (ps : List (Nat × Nat)) (init : List (Option Nat))
    (s v : Nat) (hnd : (ps.map Prod.fst).Nodup) (hmem : (s, v) ∈ ps)
    (hlt : s < init.length) :
    (writeSlots ps init)[s]? = some (some v) := by
  induction ps generalizing init with
  | nil => cases hmem
  | cons p ps ih =>
    obtain ⟨s0, v0⟩ := p
    simp only [List.map_cons, List.nodup_cons] at hnd
    rw [show writeSlots ((s0, v0) :: ps) init = writeSlots ps (init.set s0 (some v0)) from rfl]
    rcases List.mem_cons.mp hmem with h | h
    · injection h with h1 h2
      subst h1; subst h2
      rw [writeSlots_getElem?_of_not_mem ps _ s hnd.1]
      simp [List.getElem?_set, hlt]
    · exact ih _ hnd.2 h (by simpa [List.length_set] using hlt)

theorem writeSlots_getElem?_some (ps : List (Nat × Nat)) (init : List (Option Nat))
    (s v : Nat) (h : (writeSlots ps init)[s]? = some (some v)) :
    (s, v) ∈ ps ∨ init[s]? = some (some v) := by
  induction ps generalizing init with
  | nil => exact Or.inr h
  | cons p ps ih =>
    obtain ⟨s0, v0⟩ := p
    rw [show writeSlots ((s0, v0) :: ps) init = writeSlots ps (init.set s0 (some v0)) from
      rfl] at h
    rcases ih _ h with h1 | h1
    · exact Or.inl (List.mem_cons_of_mem _ h1)
    · rw [List.getElem?_set] at h1
      by_cases he : s0 = s
      · subst he
        by_cases hl : s0 < init.length
        · simp only [if_pos rfl, if_pos hl, Option.some.injEq] at h1
          simp only [eq_self_iff_true, if_true] at h1
          rcases Option.some.inj h1 with h2
          exact Or.inl (by simp [Option.some.inj h2])
        · simp [hl] at h1
      · rw [if_neg he] at h1
        exact Or.inr h1

/-! ### Numeric facts about the slot count and tolerance -/

theorem slotOf_lt (seed m : Nat) (e : Element) (h : m ≠ 0) : slotOf seed m e < m :=
  Nat.mod_lt _ (Nat.pos_of_ne_zero h)

theorem le_mOf (cfg : BuildConfig) (n : Nat) (h : 1 ≤ cfg.load_factor) :
    n ≤ mOf cfg n := by
  have h1 : (n : ℚ) ≤ cfg.load_factor * n :=
    le_mul_of_one_le_left (Nat.cast_nonneg n) h
  have h2 : (n : ℤ) ≤ ⌈cfg.load_factor * (n : ℚ)⌉ := by
    calc (n : ℤ) = ⌈((n : ℚ))⌉ := (Int.ceil_natCast n).symm
    _ ≤ ⌈cfg.load_factor * (n : ℚ)⌉ := Int.ceil_le_ceil h1
  have h3 := Int.toNat_le_toNat h2
  simpa [mOf] using h3

theorem mOf_zero (cfg : BuildConfig) : mOf cfg 0 = 0 := by
  simp [mOf]

theorem tolOf_of_error_rate_zero (cfg : BuildConfig) (h : cfg.error_rate = 0)
    (n : Nat) : tolOf cfg n = 0 := by
  simp [tolOf, h]

/-! ### Properties of the assignment pass -/

theorem assignAux_cons_mem {α : Type _} (keyOf : α → Element) (seed m : Nat)
    (a : α) (as : List α) (used : List Nat) (h : slotOf seed m (keyOf a) ∈ used) :
    assignAux keyOf seed m (a :: as) used =
      ((assignAux keyOf seed m as used).1, a :: (assignAux keyOf seed m as used).2) := by
  simp [assignAux, h]

theorem assignAux_cons_not_mem {α : Type _} (keyOf : α → Element) (seed m : Nat)
    (a : α) (as : List α) (used : List Nat) (h : slotOf seed m (keyOf a) ∉ used) :
    assignAux keyOf seed m (a :: as) used =
      ((a, slotOf seed m (keyOf a)) ::
         (assignAux keyOf seed m as (slotOf seed m (keyOf a) :: used)).1,
       (assignAux keyOf seed m as (slotOf seed m (keyOf a) :: used)).2) := by
  simp [assignAux, h]

theorem assignAux_snd_eq_slot {α : Type _} (keyOf : α → Element) (seed m : Nat)
    (as : List α) (used : List Nat) (p : α × Nat)
    (hp : p ∈ (assignAux keyOf seed m as used).1) :
    p.2 = slotOf seed m (keyOf p.1) := by
  induction as generalizing used with
  | nil => cases hp
  | cons a as ih =>
    by_cases h : slotOf seed m (keyOf a) ∈ used
    · rw [assignAux_cons_mem keyOf seed m a as used h] at hp
      exact ih used hp
    · rw [assignAux_cons_not_mem keyOf seed m a as used h] at hp
      rcases List.mem_cons.mp hp with h1 | h1
      · subst h1; rfl
      · exact ih _ h1

theorem assignAux_fst_mem {α : Type _} (keyOf : α → Element) (seed m : Nat)
    (as : List α) (used : List Nat) (p : α × Nat)
    (hp : p ∈ (assignAux keyOf seed m as used).1) :
    p.1 ∈ as := by
  induction as generalizing used with
  | nil => cases hp
  | cons a as ih =>
    by_cases h : slotOf seed m (keyOf a) ∈ used
    · rw [assignAux_cons_mem keyOf seed m a as used h] at hp
      exact List.mem_cons_of_mem _ (ih used hp)
    · rw [assignAux_cons_not_mem keyOf seed m a as used h] at hp
      rcases List.mem_cons.mp hp with h1 | h1
      · subst h1; exact List.mem_cons_self _ _
      · exact List.mem_cons_of_mem _ (ih _ h1)

theorem assignAux_slots_fresh_nodup {α : Type _} (keyOf : α → Element) (seed m : Nat)
    (as : List α) (used : List Nat) :
    (∀ s ∈ ((assignAux keyOf seed m as used).1.map Prod.snd), s ∉ used) ∧
    ((assignAux keyOf seed m as used).1.map Prod.snd).Nodup := by
  induction as generalizing used with
  | nil => simp [assignAux]
  | cons a as ih =>
    by_cases h : slotOf seed m (keyOf a) ∈ used
    · rw [assignAux_cons_mem keyOf seed m a as used h]
      exact ih used
    · rw [assignAux_cons_not_mem keyOf seed m a as used h]
      obtain ⟨fresh, nodup⟩ := ih (slotOf seed m (keyOf a) :: used)
      refine ⟨?_, ?_⟩
      · intro s hs
        simp only [List.map_cons, List.mem_cons] at hs
        rcases hs with h1 | h1
        · subst h1; exact h
        · intro hcon
          exact fresh s h1 (List.mem_cons_of_mem _ hcon)
      · simp only [List.map_cons, List.nodup_cons]
        refine ⟨?_, nodup⟩
        intro hcon
        exact fresh _ hcon (List.mem_cons_self _ _)

theorem assignAux_cover {α : Type _} (keyOf : α → Element) (seed m : Nat)
    (as : List α) (used : List Nat) (x : α) (hx : x ∈ as) :
    x ∈ (assignAux keyOf seed m as used).1.map Prod.fst ∨
      x ∈ (assignAux keyOf seed m as used).2 := by
  induction as generalizing used with
  | nil => cases hx
  | cons a as ih =>
    by_cases h : slotOf seed m (keyOf a) ∈ used
    · rw [assignAux_cons_mem keyOf seed m a as used h]
      rcases List.mem_cons.mp hx with h1 | h1
      · subst h1; exact Or.inr (List.mem_cons_self _ _)
      · rcases ih used h1 with h2 | h2
        · exact Or.inl h2
        · exact Or.inr (List.mem_cons_of_mem _ h2)
    · rw [assignAux_cons_not_mem keyOf seed m a as used h]
      rcases List.mem_cons.mp hx with h1 | h1
      · subst h1
        exact Or.inl (by simp)
      · rcases ih (slotOf seed m (keyOf a) :: used) h1 with h2 | h2
        · exact Or.inl (by simp only [List.map_cons]; exact List.mem_cons_of_mem _ h2)
        · exact Or.inr h2

theorem assignAux_dropped_slot {α : Type _} (keyOf : α → Element) (seed m : Nat)
    (as : List α) (used : List Nat) (x : α)
    (hx : x ∈ (assignAux keyOf seed m as used).2) :
    slotOf seed m (keyOf x) ∈ used ∨
      slotOf seed m (keyOf x) ∈ (assignAux keyOf seed m as used).1.map Prod.snd := by
  induction as generalizing used with
  | nil => cases hx
  | cons a as ih =>
    by_cases h : slotOf seed m (keyOf a) ∈ used
    · rw [assignAux_cons_mem keyOf seed m a as used h] at hx ⊢
      rcases List.mem_cons.mp hx with h1 | h1
      · subst h1; exact Or.inl h
      · exact ih used h1
    · rw [assignAux_cons_not_mem keyOf seed m a as used h] at hx ⊢
      rcases ih (slotOf seed m (keyOf a) :: used) hx with h1 | h1
      · rcases List.mem_cons.mp h1 with h2 | h2
        · exact Or.inr (by simp [h2])
        · exact Or.inl h2
      · exact Or.inr (by simp only [List.map_cons]; exact List.mem_cons_of_mem _ h1)

/-! ### The seed search -/

theorem searchSeed_some {α : Type _} (keyOf : α → Element) (m tol : Nat) (as : List α)
    (fuel s0 seed : Nat) (r : List (α × Nat) × List α)
    (h : searchSeed keyOf m tol as fuel s0 = some (seed, r)) :
    r = assignAux keyOf seed m as [] ∧ r.2.length ≤ tol := by
  induction fuel generalizing s0 with
  | zero => cases h
  | succ fuel ih =>
    rw [searchSeed] at h
    by_cases hc : (assignAux keyOf s0 m as []).2.length ≤ tol
    · simp only [hc, if_true, Option.some.injEq] at h
      obtain ⟨h1, h2⟩ := Prod.mk.inj (h)
      subst h1
      subst h2
      exact ⟨rfl, hc⟩
    · simp only [hc, if_false] at h
      exact ih (s0 + 1) h

/-! ### Destructuring successful builds -/

theorem buildFilter_ok_elim (cfg : BuildConfig) (W : Nat) (es : List Element)
    (f : SigFilter) (hb : buildFilter cfg W es = .ok f) :
    ∃ seed assigned dropped,
      assignAux id seed (mOf cfg es.dedup.length) es.dedup [] = (assigned, dropped) ∧
      dropped.length ≤ tolOf cfg es.dedup.length ∧
      f = { W := W, seed := seed, m := mOf cfg es.dedup.length,
            nDropped := dropped.length, nElems := es.dedup.length,
            slots := writeSlots (assigned.map (fun p => (p.2, sigW W p.1)))
                       (List.replicate (mOf cfg es.dedup.length) none) } := by
  unfold buildFilter at hb
  dsimp only at hb
  split at hb
  · cases hb
  · next seed assigned dropped hsearch =>
    obtain ⟨h1, h2⟩ := searchSeed_some id (mOf cfg es.dedup.length)
      (tolOf cfg es.dedup.length) es.dedup cfg.max_iterations 0 seed
      (assigned, dropped) hsearch
    refine ⟨seed, assigned, dropped, h1.symm, h2, ?_⟩
    exact (Except.ok.inj hb).symm

theorem buildThreshFilter_ok_elim (cfg : BuildConfig) (W : Nat) (fpr : ℚ)
    (es : List Element) (f : ThreshFilter)
    (hb : buildThreshFilter cfg W fpr es = .ok f) :
    ∃ seed assigned dropped,
      assignAux id seed (mOf cfg es.dedup.length) es.dedup [] = (assigned, dropped) ∧
      dropped.length ≤ tolOf cfg es.dedup.length ∧
      f = { W := W, seed := seed, m := mOf cfg es.dedup.length, t := thresholdOf fpr W,
            slots := writeSlots
                       (assigned.map (fun p => (p.2, sigW W p.1 % (thresholdOf fpr W + 1))))
                       (List.replicate (mOf cfg es.dedup.length) none) } := by
  unfold buildThreshFilter at hb
  split at hb
  · cases hb
  · dsimp only at hb
    split at hb
    · cases hb
    · next seed assigned dropped hsearch =>
      obtain ⟨h1, h2⟩ := searchSeed_some id (mOf cfg es.dedup.length)
        (tolOf cfg es.dedup.length) es.dedup cfg.max_iterations 0 seed
        (assigned, dropped) hsearch
      refine ⟨seed, assigned, dropped, h1.symm, h2, ?_⟩
      exact (Except.ok.inj hb).symm

theorem buildLookup_ok_elim (cfg : BuildConfig) (W : Nat) (keys : List Element)
    (vals : List Nat) (lk : CompactLookup)
    (hb : buildLookup cfg W keys vals = .ok lk) :
    ∃ seed assigned,
      assignAux Prod.fst seed (mOf cfg keys.length) (keys.zip vals) [] = (assigned, []) ∧
      lk = { W := W, seed := seed, m := mOf cfg keys.length,
             slots := writeSlots (assigned.map (fun p => (p.2, p.1.2)))
                        (List.replicate (mOf cfg keys.length) none) } := by
  unfold buildLookup at hb
  split at hb
  · cases hb
  · split at hb
    · cases hb
    · dsimp only at hb
      split at hb
      · cases hb
      · next seed assigned dropped hsearch =>
        obtain ⟨h1, h2⟩ := searchSeed_some Prod.fst (mOf cfg keys.length) 0
          (keys.zip vals) cfg.max_iterations 0 seed (assigned, dropped) hsearch
        have hdrop : dropped = [] := List.length_eq_zero.mp (Nat.le_zero.mp h2)
        subst hdrop
        refine ⟨seed, assigned, h1.symm, ?_⟩
        exact (Except.ok.inj hb).symm

/-- The slot array produced for an assignment stores, at each assigned
item's slot, exactly the word computed from that item. -/
theorem writeSlots_assigned {α : Type _} (keyOf : α → Element) (g : α → Nat)
    (seed m : Nat) (as : List α) (assigned : List (α × Nat)) (dropped : List α)
    (hassign : assignAux keyOf seed m as [] = (assigned, dropped))
    (p : α × Nat) (hp : p ∈ assigned) (hm : m ≠ 0) :
    (writeSlots (assigned.map (fun q => (q.2, g q.1)))
       (List.replicate m (none : Option Nat)))[p.2]? = some (some (g p.1)) := by
  have hp' : p ∈ (assignAux keyOf seed m as []).1 := by rw [hassign]; exact hp
  have hslot := assignAux_snd_eq_slot keyOf seed m as [] p hp'
  have hlt : p.2 < m := by rw [hslot]; exact slotOf_lt seed m (keyOf p.1) hm
  have hnd := (assignAux_slots_fresh_nodup keyOf seed m as []).2
  rw [hassign] at hnd
  have hnd2 : ((assigned.map (fun q => (q.2, g q.1))).map Prod.fst).Nodup := by
    simpa [List.map_map, Function.comp] using hnd
  have hmem : (p.2, g p.1) ∈ assigned.map (fun q => (q.2, g q.1)) :=
    List.mem_map.mpr ⟨p, hp, rfl⟩
  exact writeSlots_getElem?_mem _ _ _ _ hnd2 hmem
    (by simpa [List.length_replicate] using hlt)

/-- C1: with `error_rate = 0`, every element of the construction set —
whatever its type and whatever the signature width — is reported a member
of the built filter. -/
theorem buildFilter_contains_members (cfg : BuildConfig) (W : Nat)
    (es : List Element) (f : SigFilter) (e : Element)
    (hlf : 1 ≤ cfg.load_factor) (her : cfg.error_rate = 0)
    (hb : buildFilter cfg W es = .ok f) (he : e ∈ es) :
    f.contains e = true := by
  obtain ⟨seed, assigned, dropped, hassign, hdlen, hf⟩ := buildFilter_ok_elim cfg W es f hb
  rw [tolOf_of_error_rate_zero cfg her] at hdlen
  have hdrop : dropped = [] := List.length_eq_zero.mp (Nat.le_zero.mp hdlen)
  subst hdrop
  have he' : e ∈ es.dedup := List.mem_dedup.mpr he
  have hm : mOf cfg es.dedup.length ≠ 0 := by
    have h1 := le_mOf cfg es.dedup.length hlf
    have h2 : es.dedup.length ≠ 0 :=
      fun h0 => (List.ne_nil_of_mem he') (List.length_eq_zero.mp h0)
    omega
  have hcov := assignAux_cover id seed (mOf cfg es.dedup.length) es.dedup [] e he'
  rw [hassign] at hcov
  simp only [List.mem_map, List.not_mem_nil, or_false] at hcov
  obtain ⟨p, hp, hpe⟩ := hcov
  obtain ⟨e1, s⟩ := p
  dsimp only at hpe
  subst hpe
  have hp' : (e1, s) ∈ (assignAux id seed (mOf cfg es.dedup.length) es.dedup []).1 := by
    rw [hassign]; exact hp
  have hslot := assignAux_snd_eq_slot id seed (mOf cfg es.dedup.length) es.dedup [] (e1, s) hp'
  simp only [id_eq] at hslot
  have hw := writeSlots_assigned id (sigW W) seed (mOf cfg es.dedup.length)
    es.dedup assigned [] hassign (e1, s) hp hm
  subst hf
  simp only [SigFilter.contains]
  rw [show slotOf seed (mOf cfg es.dedup.length) e1 = s from hslot.symm]
  rw [hw]
  simp

/-- C5: every element of a threshold filter's construction set is accepted:
assigned elements store a word satisfying the acceptance predicate by
construction, and a colliding element hashes into a slot already holding
such a word. -/
theorem buildThreshFilter_contains_members (cfg : BuildConfig) (W : Nat) (fpr : ℚ)
    (es : List Element) (f : ThreshFilter) (e : Element)
    (hlf : 1 ≤ cfg.load_factor) (hb : buildThreshFilter cfg W fpr es = .ok f)
    (he : e ∈ es) : f.contains e = true := by
  obtain ⟨seed, assigned, dropped, hassign, hdlen, hf⟩ :=
    buildThreshFilter_ok_elim cfg W fpr es f hb
  have he' : e ∈ es.dedup := List.mem_dedup.mpr he
  have hm : mOf cfg es.dedup.length ≠ 0 := by
    have h1 := le_mOf cfg es.dedup.length hlf
    have h2 : es.dedup.length ≠ 0 :=
      fun h0 => (List.ne_nil_of_mem he') (List.length_eq_zero.mp h0)
    omega
  have hcov := assignAux_cover id seed (mOf cfg es.dedup.length) es.dedup [] e he'
  rw [hassign] at hcov
  have hocc : ∃ q ∈ assigned, q.2 = slotOf seed (mOf cfg es.dedup.length) e := by
    rcases hcov with hmem | hmem
    · dsimp only at hmem
      obtain ⟨p, hp, hpe⟩ := List.mem_map.mp hmem
      refine ⟨p, hp, ?_⟩
      have hp' : p ∈ (assignAux id seed (mOf cfg es.dedup.length) es.dedup []).1 := by
        rw [hassign]; exact hp
      have hs := assignAux_snd_eq_slot id seed (mOf cfg es.dedup.length) es.dedup [] p hp'
      rw [hs, id_eq, hpe]
    · have hd : e ∈ (assignAux id seed (mOf cfg es.dedup.length) es.dedup []).2 := by
        rw [hassign]; exact hmem
      have hds := assignAux_dropped_slot id seed (mOf cfg es.dedup.length) es.dedup [] e hd
      rcases hds with h1 | h1
      · cases h1
      · rw [hassign] at h1
        dsimp only at h1
        simp only [id_eq] at h1
        obtain ⟨q, hq, hqs⟩ := List.mem_map.mp h1
        exact ⟨q, hq, hqs⟩
  obtain ⟨q, hq, hqs⟩ := hocc
  have hw := writeSlots_assigned id (fun a => sigW W a % (thresholdOf fpr W + 1)) seed
    (mOf cfg es.dedup.length) es.dedup assigned dropped hassign q hq hm
  subst hf
  simp only [ThreshFilter.contains]
  rw [← hqs, hw]
  have hle : sigW W q.1 % (thresholdOf fpr W + 1) ≤ thresholdOf fpr W :=
    Nat.lt_succ_iff.mp (Nat.mod_lt _ (Nat.succ_pos _))
  simp [hle]

/-- C2: every key/value pair supplied at build time is returned exactly by
`get`, whatever default the caller passes. -/
theorem buildLookup_roundtrip (cfg : BuildConfig) (W : Nat) (keys : List Element)
    (vals : List Nat) (lk : CompactLookup) (k : Element) (v d : Nat)
    (hlf : 1 ≤ cfg.load_factor) (hb : buildLookup cfg W keys vals = .ok lk)
    (hkv : (k, v) ∈ keys.zip vals) :
    lk.get k d = v := by
  obtain ⟨seed, assigned, hassign, hlk⟩ := buildLookup_ok_elim cfg W keys vals lk hb
  have hm : mOf cfg keys.length ≠ 0 := by
    have h1 := le_mOf cfg keys.length hlf
    have h2 : keys.length ≠ 0 := by
      have hk := (List.of_mem_zip hkv).1
      exact fun h0 => (List.ne_nil_of_mem hk) (List.length_eq_zero.mp h0)
    omega
  have hcov := assignAux_cover Prod.fst seed (mOf cfg keys.length)
    (keys.zip vals) [] (k, v) hkv
  rw [hassign] at hcov
  simp only [List.not_mem_nil, or_false] at hcov
  obtain ⟨p, hp, hpe⟩ := List.mem_map.mp hcov
  have hw := writeSlots_assigned Prod.fst Prod.snd seed (mOf cfg keys.length)
    (keys.zip vals) assigned [] hassign p hp hm
  have hp' : p ∈ (assignAux Prod.fst seed (mOf cfg keys.length) (keys.zip vals) []).1 := by
    rw [hassign]; exact hp
  have hslot := assignAux_snd_eq_slot Prod.fst seed (mOf cfg keys.length)
    (keys.zip vals) [] p hp'
  subst hlk
  simp only [CompactLookup.get]
  rw [show slotOf seed (mOf cfg keys.length) k = p.2 from by rw [hslot, hpe]]
  rw [hw, hpe]

/-- C3 (amended): for a key outside the construction set, `get` returns the
caller-supplied default when the slot the key hashes to is unoccupied; a
non-member key that hashes into an occupied slot instead receives that very
slot's stored value — a value written for a different construction key
hashing to the same slot. -/
theorem buildLookup_nonmember (cfg : BuildConfig) (W : Nat) (keys : List Element)
    (vals : List Nat) (lk : CompactLookup) (k : Element) (d : Nat)
    (hb : buildLookup cfg W keys vals = .ok lk) (hk : k ∉ keys) :
    (lk.slots[slotOf lk.seed lk.m k]? = some Option.none → lk.get k d = d) ∧
    (lk.slots[slotOf lk.seed lk.m k]? = Option.none → lk.get k d = d) ∧
    (∀ v, lk.slots[slotOf lk.seed lk.m k]? = some (some v) →
      lk.get k d = v ∧
      ∃ kv, kv ∈ keys.zip vals ∧ kv.1 ≠ k ∧
        slotOf lk.seed lk.m kv.1 = slotOf lk.seed lk.m k ∧ kv.2 = v) := by
  obtain ⟨seed, assigned, hassign, hlk⟩ := buildLookup_ok_elim cfg W keys vals lk hb
  subst hlk
  refine ⟨?_, ?_, ?_⟩
  · intro hcell
    simp only [CompactLookup.get, hcell]
  · intro hcell
    simp only [CompactLookup.get, hcell]
  · intro v hcell
    refine ⟨by simp only [CompactLookup.get, hcell], ?_⟩
    rcases writeSlots_getElem?_some _ _ _ _ hcell with h1 | h1
    · obtain ⟨q, hq, hqe⟩ := List.mem_map.mp h1
      injection hqe with hqe1 hqe2
      have hq' : q ∈ (assignAux Prod.fst seed (mOf cfg keys.length)
          (keys.zip vals) []).1 := by
        rw [hassign]; exact hq
      have hqin : q.1 ∈ keys.zip vals :=
        assignAux_fst_mem Prod.fst seed (mOf cfg keys.length) (keys.zip vals) [] q hq'
      have hslot := assignAux_snd_eq_slot Prod.fst seed (mOf cfg keys.length)
        (keys.zip vals) [] q hq'
      have hkey : q.1.1 ∈ keys := by
        obtain ⟨⟨kk, vv⟩, s⟩ := q
        exact (List.of_mem_zip hqin).1
      refine ⟨q.1, hqin, fun hcon => hk (hcon ▸ hkey), ?_, hqe2⟩
      show slotOf seed (mOf cfg keys.length) q.1.1 = slotOf seed (mOf cfg keys.length) k
      rw [← hslot, hqe1]
    · rw [List.getElem?_replicate] at h1
      split at h1
      · cases h1
      · cases h1

/-- C4: for all three built structures, `storage_bytes()` is exactly
`m * W / 8` with `m = ceil(load_factor * n)` slots for `n` construction
items. -/
theorem storage_bytes_exact :
    (∀ (cfg : BuildConfig) (W : Nat) (es : List Element) (f : SigFilter),
        buildFilter cfg W es = .ok f →
        f.storage_bytes = mOf cfg es.dedup.length * W / 8) ∧
    (∀ (cfg : BuildConfig) (W : Nat) (fpr : ℚ) (es : List Element) (f : ThreshFilter),
        buildThreshFilter cfg W fpr es = .ok f →
        f.storage_bytes = mOf cfg es.dedup.length * W / 8) ∧
    (∀ (cfg : BuildConfig) (W : Nat) (keys : List Element) (vals : List Nat)
        (lk : CompactLookup), buildLookup cfg W keys vals = .ok lk →
        lk.storage_bytes = mOf cfg keys.length * W / 8) := by
  refine ⟨?_, ?_, ?_⟩
  · intro cfg W es f hb
    obtain ⟨seed, assigned, dropped, _, _, hf⟩ := buildFilter_ok_elim cfg W es f hb
    subst hf
    simp [SigFilter.storage_bytes, writeSlots_length, List.length_replicate]
  · intro cfg W fpr es f hb
    obtain ⟨seed, assigned, dropped, _, _, hf⟩ :=
      buildThreshFilter_ok_elim cfg W fpr es f hb
    subst hf
    simp [ThreshFilter.storage_bytes, writeSlots_length, List.length_replicate]
  · intro cfg W keys vals lk hb
    obtain ⟨seed, assigned, hassign, hlk⟩ := buildLookup_ok_elim cfg W keys vals lk hb
    subst hlk
    simp [CompactLookup.storage_bytes, writeSlots_length, List.length_replicate]

/-- C6: mismatched key/value counts fail with `SizeMismatchError`, and no
lookup table is produced at all. -/
theorem buildLookup_size_mismatch (cfg : BuildConfig) (W : Nat)
    (keys : List Element) (vals : List Nat) (h : keys.length ≠ vals.length) :
    buildLookup cfg W keys vals = .error .sizeMismatch ∧
      ∀ lk, buildLookup cfg W keys vals ≠ .ok lk := by
  have h1 : buildLookup cfg W keys vals = .error .sizeMismatch := by
    unfold buildLookup
    rw [if_pos h]
  refine ⟨h1, fun lk hcon => ?_⟩
  rw [h1] at hcon
  cases hcon

section

attribute [local semireducible] Rat.mul Rat.add Rat.inv Rat.sub

/-- C7: `false_negative_rate()` is exactly zero whenever `error_rate = 0`,
and a construction with `error_rate > 0` exists whose rate is strictly
positive (two colliding elements, one dropped within tolerance). -/
theorem false_negative_rate_spec :
    (∀ (cfg : BuildConfig) (W : Nat) (es : List Element) (f : SigFilter),
        cfg.error_rate = 0 → buildFilter cfg W es = .ok f →
        f.false_negative_rate = 0) ∧
    (0 < (⟨1/2, 1, 64⟩ : BuildConfig).error_rate ∧
      (buildFilter ⟨1/2, 1, 64⟩ 8 [Element.int 0, Element.int 2]).map
          SigFilter.false_negative_rate = .ok (1/2) ∧
      (0 : ℚ) < 1/2) := by
  constructor
  · intro cfg W es f her hb
    obtain ⟨seed, assigned, dropped, _, hdlen, hf⟩ := buildFilter_ok_elim cfg W es f hb
    rw [tolOf_of_error_rate_zero cfg her] at hdlen
    have hdrop : dropped.length = 0 := Nat.le_zero.mp hdlen
    subst hf
    simp [SigFilter.false_negative_rate, hdrop]
  · exact ⟨by norm_num, by decide, by norm_num⟩

end

/-- C9: building over an empty collection succeeds, and the resulting
filter reports every query element a non-member. -/
theorem buildFilter_empty (cfg : BuildConfig) (W : Nat)
    (h : 1 ≤ cfg.max_iterations) :
    buildFilter cfg W [] = .ok ⟨W, 0, 0, 0, 0, []⟩ ∧
      ∀ (f : SigFilter) (x : Element),
        buildFilter cfg W [] = .ok f → f.contains x = false := by
  obtain ⟨k, hk⟩ : ∃ k, cfg.max_iterations = k + 1 := ⟨cfg.max_iterations - 1, by omega⟩
  have h1 : buildFilter cfg W [] = .ok ⟨W, 0, 0, 0, 0, []⟩ := by
    unfold buildFilter
    simp only [List.dedup_nil, List.length_nil, mOf_zero, hk]
    rw [searchSeed]
    simp [assignAux, writeSlots]
  refine ⟨h1, fun f x hb => ?_⟩
  rw [h1] at hb
  have hf := Except.ok.inj hb
  rw [← hf]
  simp [SigFilter.contains]

/-- C8: batch queries are positionally aligned with the insertion order of
the filters, `test_any` is the OR of `test_all`, and a batch with zero
filters accepts nothing. -/
theorem filterBatch_spec (b : FilterBatch) (f : SigFilter) (x : Element) (i : Nat) :
    (b.add f).test_all x = b.test_all x ++ [f.contains x] ∧
    (b.test_all x)[i]? = (b.filters[i]?).map (fun g => g.contains x) ∧
    b.test_any x = (b.test_all x).any (fun r => r) ∧
    FilterBatch.empty.test_any x = false := by
  refine ⟨?_, ?_, ?_, rfl⟩
  · simp [FilterBatch.add, FilterBatch.test_all]
  · simp [FilterBatch.test_all, List.getElem?_map]
  · have haux : ∀ (l : List SigFilter) (acc : Bool),
        l.foldl (fun acc g => acc || g.contains x) acc
          = (acc || l.any (fun g => g.contains x)) := by
      intro l
      induction l with
      | nil => intro acc; simp
      | cons g l ih =>
        intro acc
        simp [List.foldl_cons, ih, Bool.or_assoc]
    have h2 : ∀ (l : List SigFilter),
        (List.map (fun g => g.contains x) l).any (fun r => r)
          = l.any (fun g => g.contains x) := by
      intro l
      induction l with
      | nil => rfl
      | cons g l ih => simp [ih]
    show b.filters.foldl (fun acc g => acc || g.contains x) false
        = (b.filters.map (fun g => g.contains x)).any (fun r => r)
    rw [haux, h2, Bool.false_or]

end Maph

namespace MaphClient

/-- C10: `MaphStore.get` never surfaces `KeyNotFoundError`: a successful
item lookup yields the stored value, a `KeyNotFoundError` from the item
lookup yields the caller's default, and any other error (such as
`StoreNotFoundError`) propagates unchanged. -/
theorem get_spec (resp : HttpResponse) (d : Option String) :
    (∀ v, getItem resp = .ok v → get resp d = .ok (some v)) ∧
    (getItem resp = .error .keyNotFound → get resp d = .ok d) ∧
    (∀ e, e ≠ ClientError.keyNotFound → getItem resp = .error e →
        get resp d = .error e) ∧
    get resp d ≠ .error ClientError.keyNotFound := by
  refine ⟨?_, ?_, ?_, ?_⟩
  · intro v h
    simp [get, h]
  · intro h
    simp [get, h]
  · intro e he h
    cases e with
    | keyNotFound => exact absurd rfl he
    | storeNotFound => simp [get, h]
    | httpError s => simp [get, h]
    | jsonKeyError => simp [get, h]
  · cases h : getItem resp with
    | ok v => simp [get, h]
    | error e =>
      cases e with
      | keyNotFound => simp [get, h]
      | storeNotFound => simp [get, h]
      | httpError s => simp [get, h]
      | jsonKeyError => simp [get, h]

end MaphClient

namespace Maph

section

attribute [local semireducible] Rat.mul Rat.add Rat.inv Rat.sub

/-- Witness for C1: a concrete build over all five element categories. -/
theorem buildFilter_contains_members_witness :
    (1 : ℚ) ≤ (⟨0, 2, 64⟩ : BuildConfig).load_factor ∧
    (⟨0, 2, 64⟩ : BuildConfig).error_rate = 0 ∧
    buildFilter ⟨0, 2, 64⟩ 32
        [.int 1, .str "two", .float 3,
         .tup (.cons (.int 4) (.cons (.int 5) .nil)), .absent] =
      .ok ⟨32, 0, 10, 0, 5,
        [some 3035707378, some 2248257811, some 676750350, some 2884323905,
         none, none, none, none, some 1812934148, none]⟩ ∧
    SigFilter.contains
        ⟨32, 0, 10, 0, 5,
          [some 3035707378, some 2248257811, some 676750350, some 2884323905,
           none, none, none, none, some 1812934148, none]⟩
        (.tup (.cons (.int 4) (.cons (.int 5) .nil))) = true :=
  ⟨by decide, by decide, by decide,
    buildFilter_contains_members ⟨0, 2, 64⟩ 32
      [.int 1, .str "two", .float 3,
       .tup (.cons (.int 4) (.cons (.int 5) .nil)), .absent]
      ⟨32, 0, 10, 0, 5,
        [some 3035707378, some 2248257811, some 676750350, some 2884323905,
         none, none, none, none, some 1812934148, none]⟩
      (.tup (.cons (.int 4) (.cons (.int 5) .nil)))
      (by decide) (by decide) (by decide) (by decide)⟩

/-- Witness for C2: the concrete lookup returns its build-time value. -/
theorem buildLookup_roundtrip_witness :
    (1 : ℚ) ≤ (PerfectHashBuilder 0).load_factor ∧
    buildLookup (PerfectHashBuilder 0) 8 [.int 1, .int 2] [10, 20] =
      .ok ⟨8, 0, 2, [some 10, some 20]⟩ ∧
    (Element.int 1, 10) ∈ [Element.int 1, Element.int 2].zip [10, 20] ∧
    CompactLookup.get ⟨8, 0, 2, [some 10, some 20]⟩ (.int 1) 99 = 10 :=
  ⟨by decide, by decide, by decide,
    buildLookup_roundtrip (PerfectHashBuilder 0) 8 [.int 1, .int 2] [10, 20]
      ⟨8, 0, 2, [some 10, some 20]⟩ (.int 1) 10 99
      (by decide) (by decide) (by decide)⟩

/-- Counterexample for C3 as stated: `int 3` is not a construction key, yet
`get` returns the stored slot value 10 rather than the default 99. -/
theorem buildLookup_nonmember_cex :
    Element.int 3 ∉ [Element.int 1, Element.int 2] ∧
    buildLookup (PerfectHashBuilder 0) 8 [.int 1, .int 2] [10, 20] =
      .ok ⟨8, 0, 2, [some 10, some 20]⟩ ∧
    CompactLookup.get ⟨8, 0, 2, [some 10, some 20]⟩ (.int 3) 99 = 10 ∧
    (10 : Nat) ≠ 99 := by
  decide

/-- Witness for C3 (amended): on a load-factor-2 build the non-member
`int 3` hashes to an unoccupied slot and receives the default 99, while the
non-member `int 5` hashes into the occupied slot written for `int 1` and
receives that slot's stored value 10. -/
theorem buildLookup_nonmember_witness :
    buildLookup ⟨0, 2, 64⟩ 8 [.int 1, .int 2] [10, 20] =
      .ok ⟨8, 0, 4, [some 10, some 20, none, none]⟩ ∧
    Element.int 3 ∉ [Element.int 1, Element.int 2] ∧
    (⟨8, 0, 4, [some 10, some 20, none, none]⟩ :
        CompactLookup).slots[slotOf 0 4 (.int 3)]? = some Option.none ∧
    CompactLookup.get ⟨8, 0, 4, [some 10, some 20, none, none]⟩ (.int 3) 99 = 99 ∧
    Element.int 5 ∉ [Element.int 1, Element.int 2] ∧
    (⟨8, 0, 4, [some 10, some 20, none, none]⟩ :
        CompactLookup).slots[slotOf 0 4 (.int 5)]? = some (some 10) ∧
    CompactLookup.get ⟨8, 0, 4, [some 10, some 20, none, none]⟩ (.int 5) 99 = 10 :=
  ⟨by decide, by decide, by decide,
    (buildLookup_nonmember ⟨0, 2, 64⟩ 8 [.int 1, .int 2] [10, 20]
      ⟨8, 0, 4, [some 10, some 20, none, none]⟩ (.int 3) 99
      (by decide) (by decide)).1 (by decide),
    by decide, by decide,
    ((buildLookup_nonmember ⟨0, 2, 64⟩ 8 [.int 1, .int 2] [10, 20]
      ⟨8, 0, 4, [some 10, some 20, none, none]⟩ (.int 5) 99
      (by decide) (by decide)).2.2 10 (by decide)).1⟩

/-- Witness for C4: the concrete 8-bit filter over three elements occupies
exactly three bytes. -/
theorem storage_bytes_exact_witness :
    buildFilter (PerfectHashBuilder 0) 8 [.int 1, .int 2, .int 3] =
      .ok ⟨8, 1, 3, 0, 3, [some 106, some 4, some 29]⟩ ∧
    SigFilter.storage_bytes ⟨8, 1, 3, 0, 3, [some 106, some 4, some 29]⟩ = 3 :=
  ⟨by decide,
    (storage_bytes_exact.1 (PerfectHashBuilder 0) 8 [.int 1, .int 2, .int 3]
      ⟨8, 1, 3, 0, 3, [some 106, some 4, some 29]⟩ (by decide)).trans (by decide)⟩

/-- Witness for C5: a concrete threshold filter accepts a construction
member. -/
theorem buildThreshFilter_contains_members_witness :
    (1 : ℚ) ≤ (PerfectHashBuilder 0).load_factor ∧
    buildThreshFilter (PerfectHashBuilder 0) 8 (1/5) [.int 1, .int 2, .int 3] =
      .ok ⟨8, 1, 3, 51, [some 2, some 4, some 29]⟩ ∧
    ThreshFilter.contains ⟨8, 1, 3, 51, [some 2, some 4, some 29]⟩ (.int 2) = true :=
  ⟨by decide, by decide,
    buildThreshFilter_contains_members (PerfectHashBuilder 0) 8 (1/5)
      [.int 1, .int 2, .int 3] ⟨8, 1, 3, 51, [some 2, some 4, some 29]⟩ (.int 2)
      (by decide) (by decide) (by decide)⟩

/-- Witness for C6: three keys against two values fail with
`SizeMismatchError`. -/
theorem buildLookup_size_mismatch_witness :
    ([Element.int 1, Element.int 2, Element.int 3].length ≠ ([10, 20] : List Nat).length) ∧
    buildLookup (PerfectHashBuilder 0) 8 [.int 1, .int 2, .int 3] [10, 20] =
      .error .sizeMismatch :=
  ⟨by decide,
    (buildLookup_size_mismatch (PerfectHashBuilder 0) 8 [.int 1, .int 2, .int 3]
      [10, 20] (by decide)).1⟩

/-- Witness for C7: a concrete `error_rate = 0` build has a zero false
negative rate. -/
theorem false_negative_rate_spec_witness :
    (PerfectHashBuilder 0).error_rate = 0 ∧
    buildFilter (PerfectHashBuilder 0) 8 [.int 1, .int 2, .int 3] =
      .ok ⟨8, 1, 3, 0, 3, [some 106, some 4, some 29]⟩ ∧
    SigFilter.false_negative_rate ⟨8, 1, 3, 0, 3, [some 106, some 4, some 29]⟩ = 0 :=
  ⟨by decide, by decide,
    false_negative_rate_spec.1 (PerfectHashBuilder 0) 8 [.int 1, .int 2, .int 3]
      ⟨8, 1, 3, 0, 3, [some 106, some 4, some 29]⟩ (by decide) (by decide)⟩

/-- Witness for C9: the concrete empty build succeeds and contains
nothing. -/
theorem buildFilter_empty_witness :
    1 ≤ (PerfectHashBuilder 0).max_iterations ∧
    buildFilter (PerfectHashBuilder 0) 32 [] = .ok ⟨32, 0, 0, 0, 0, []⟩ ∧
    SigFilter.contains ⟨32, 0, 0, 0, 0, []⟩ (.int 7) = false :=
  ⟨by decide,
    (buildFilter_empty (PerfectHashBuilder 0) 32 (by decide)).1,
    (buildFilter_empty (PerfectHashBuilder 0) 32 (by decide)).2
      ⟨32, 0, 0, 0, 0, []⟩ (.int 7)
      ((buildFilter_empty (PerfectHashBuilder 0) 32 (by decide)).1)⟩

end

end Maph

namespace MaphClient

/-- Witness for C10: concrete responses exercising the value, default and
propagation branches of `MaphStore.get`. -/
theorem get_spec_witness :
    getItem ⟨404, "Key k not found", none⟩ = .error .keyNotFound ∧
    get ⟨404, "Key k not found", none⟩ (some "fallback") = .ok (some "fallback") ∧
    getItem ⟨200, "", some "alice"⟩ = .ok "alice" ∧
    get ⟨200, "", some "alice"⟩ none = .ok (some "alice") ∧
    getItem ⟨404, "Store not found", none⟩ = .error .storeNotFound ∧
    get ⟨404, "Store not found", none⟩ (some "fallback") = .error .storeNotFound :=
  ⟨by decide,
    (get_spec ⟨404, "Key k not found", none⟩ (some "fallback")).2.1 (by decide),
    by decide,
    (get_spec ⟨200, "", some "alice"⟩ none).1 "alice" (by decide),
    by decide,
    (get_spec ⟨404, "Store not found", none⟩ (some "fallback")).2.2.1
      .storeNotFound (by decide) (by decide)⟩

end MaphClient
